import Mathlib

/-!
# Verification of the cobee-msa-ml recommendation engine

A shallow embedding, in Lean 4, of the core of the `cobee-msa-ml` roommate
recommendation service:

* `src/recommender/knn/similarity.py` — feature vectors and the weighted
  Euclidean distance;
* `src/recommender/knn/rule_based.py` — the rule-based KNN recommender
  (exclusion filtering, distance ranking, max-distance normalisation);
* `src/recommender/hybrid_recommender.py` — min-max score normalisation and
  the phase-gated blend of rule-based and matrix-factorisation scores;
* `src/utils/config_loader.py` — phase / weight configuration lookups;
* `scripts/compare_phases.py`, `scripts/update_phase.py` — retrieval metrics
  and the evaluation-driven phase-transition controller.

Modelling conventions:

* Python ints are `ℤ` / `ℕ`; Python floats are modelled as exact rationals
  (`ℚ`).  The only irrational operations in the code are `math.sqrt` and
  `np.log2`; the embedding keeps the *squared* distance (`ℚ`) and the
  combinatorial content of DCG (which positions score), and theorems speak
  about `Real.sqrt` / `Real.logb` applied to those rational values.
* Nullable database columns are `Option _`; a Python comparison
  `nullable == "LIT"` is `o = some "LIT"` (false on `None`/`none`).
* Database queries are total functions over an explicit `DB` record that
  holds the rows the recommender reads.
* Python's `sort` is `List.insertionSort` on the same key.  Python's sort
  is stable and a set's iteration order is unspecified; the embedding's sort
  and `List.dedup` are a determinization of that, and no theorem below
  depends on the order of ties or of deduplicated ids.  The rule-based
  recommender sorts candidates by `sqrt`-distance; the embedding sorts by
  squared distance, which yields an identically ordered list because
  `Real.sqrt` is strictly monotone on nonnegative rationals.
* The distance→score conversion `clamp(1 - distance/maxDistance, 0, 1)`
  (rule_based.py, `generate_explanation`) produces an irrational real.  The
  recommendation pipeline is therefore parametrised by a score assignment
  `sc : ℚ → ℚ` (a function of the squared distance); the properties the
  theorems need of the genuine score function (antitonicity in the distance,
  range inside `[0,1]`) are proved separately at the `ℝ` level.
-/

/-! ## Data model (src/models/orm_models.py, fields read by the recommender) -/

/-- `MemberInformationORM`: the columns read by the similarity scorer and the
filters.  `age` stands for the result of `calculate_age()` (completed years
derived from `birth_date`); the nullable preference columns are `Option`. -/
structure Member where
  member_id : ℤ
  gender : String
  age : ℤ
  preferred_gender : Option String
  preferred_life_style : Option String
  preferred_personality : Option String
  possible_smoking : Bool
  possible_snoring : Bool
  has_pet_allowed : Bool
  cohabitant_count : Option ℤ
  my_lifestyle : Option String
  my_personality : Option String
  is_smoking : Bool
  is_snoring : Bool
  has_pet : Bool
  deriving DecidableEq, Repr

/-- `RecruitPostORM`: the columns the recommender reads. -/
structure RecruitPost where
  recruit_post_id : ℤ
  recruit_count : ℤ
  recruit_status : String
  member_id : ℤ
  deriving DecidableEq, Repr

/-- `BookmarkORM` (member_id, recruit_post_id). -/
structure Bookmark where
  member_id : ℤ
  recruit_post_id : ℤ
  deriving DecidableEq, Repr

/-- `ApplyRecordORM` (member_id, recruit_post_id). -/
structure ApplyRecord where
  member_id : ℤ
  recruit_post_id : ℤ
  deriving DecidableEq, Repr

/-- The relational store as read by the recommender: members, posts,
bookmarks and application records. -/
structure DB where
  members : List Member
  posts : List RecruitPost
  bookmarks : List Bookmark
  applyRecords : List ApplyRecord
  deriving Repr

/-! ## similarity.py -/

/-- `create_feature_vector` (similarity.py lines 11-82): the requester-side
vector — gender preference one-hot (3), age, lifestyle preference one-hot
(2), personality preference one-hot (2), habit tolerances (3), cohabitant
count (`member.cohabitant_count or 0`). -/
def memberFeatureVector (member : Member) : List ℚ :=
  [ if member.preferred_gender = some "MAN" then 1 else 0,
    if member.preferred_gender = some "FEMALE" then 1 else 0,
    if member.preferred_gender = some "NONE" then 1 else 0,
    (member.age : ℚ),
    if member.preferred_life_style = some "MORNING" then 1 else 0,
    if member.preferred_life_style = some "EVENING" then 1 else 0,
    if member.preferred_personality = some "INTROVERT" then 1 else 0,
    if member.preferred_personality = some "EXTROVERT" then 1 else 0,
    if member.possible_smoking then 1 else 0,
    if member.possible_snoring then 1 else 0,
    if member.has_pet_allowed then 1 else 0,
    ((member.cohabitant_count.getD 0 : ℤ) : ℚ) ]

/-- `create_feature_vector`, author side: actual gender one-hot (the third
slot is the constant 0 — authors have no "NONE"), age, actual lifestyle and
personality one-hots, actual habits, and the post's `recruit_count`. -/
def authorFeatureVector (post : RecruitPost) (author : Member) : List ℚ :=
  [ if author.gender = "MAN" then 1 else 0,
    if author.gender = "FEMALE" then 1 else 0,
    0,
    (author.age : ℚ),
    if author.my_lifestyle = some "MORNING" then 1 else 0,
    if author.my_lifestyle = some "EVENING" then 1 else 0,
    if author.my_personality = some "INTROVERT" then 1 else 0,
    if author.my_personality = some "EXTROVERT" then 1 else 0,
    if author.is_smoking then 1 else 0,
    if author.is_snoring then 1 else 0,
    if author.has_pet then 1 else 0,
    (post.recruit_count : ℚ) ]

/-- `create_weight_vector` (similarity.py lines 116-151): gender weight on
the 3 gender axes, age weight on the age axis, unit weight elsewhere
(structure `[gender(3), age(1), lifestyle(2), personality(2), habits(3),
cohabitants(1)]`). -/
def create_weight_vector (gender_weight age_weight : ℚ) : List ℚ :=
  List.replicate 3 gender_weight ++ [age_weight] ++ List.replicate 2 1 ++
    List.replicate 2 1 ++ List.replicate 3 1 ++ [1]

/-- The accumulation loop of `calculate_weighted_euclidean_distance`:
`Σ w_i * (a_i - b_i)^2` over the zipped triples. -/
def weightedSqSum : List ℚ → List ℚ → List ℚ → ℚ
  | a :: as', b :: bs, w :: ws => w * (a - b) ^ 2 + weightedSqSum as' bs ws
  | _, _, _ => 0

/-- `calculate_weighted_euclidean_distance` (similarity.py lines 85-113), up
to the final `math.sqrt`: rejects (returns `none`, the `ValueError` path)
when the three lists disagree in length, otherwise produces the squared
distance `Σ w_i * (a_i - b_i)^2`.  The distance itself is
`Real.sqrt` of this value and appears in the theorems. -/
def calculate_weighted_euclidean_distanceSq
    (vec_a vec_b weights : List ℚ) : Option ℚ :=
  if vec_a.length ≠ vec_b.length then none
  else if weights.length ≠ vec_a.length then none
  else some (weightedSqSum vec_a vec_b weights)

/-! ## rule_based.py -/

/-- `RuleBasedKNNRecommender.get_member_exclusions` (lines 57-82): the set of
post ids the member has bookmarked or applied to. -/
def get_member_exclusions (db : DB) (member_id : ℤ) : Finset ℤ :=
  (((db.bookmarks.filter (fun b => b.member_id = member_id)).map
      (fun b => b.recruit_post_id)) ++
    ((db.applyRecords.filter (fun a => a.member_id = member_id)).map
      (fun a => a.recruit_post_id))).toFinset

/-- `RuleBasedKNNRecommender.calculate_max_possible_distance` (lines
112-135), squared: `3*gw*2 + 1*aw*15² + 2*1*2 + 2*1*2 + 3*1*1² + 1*1*10²`.
The code returns `math.sqrt` of this. -/
def maxPossibleDistanceSq (gender_weight age_weight : ℚ) : ℚ :=
  3 * gender_weight * 2 + 1 * age_weight * 15 ^ 2 + 2 * 1 * 2 + 2 * 1 * 2 +
    3 * 1 * 1 ^ 2 + 1 * 1 * 10 ^ 2

/-- A surviving entry of the candidate loop of
`RuleBasedKNNRecommender.recommend`: the post, its author, and the (squared)
weighted distance. -/
structure Candidate where
  post : RecruitPost
  author : Member
  distSq : ℚ
  deriving DecidableEq, Repr

/-- One returned recommendation (`RecommendationItem`): the claims only
inspect the post id, the score and the rank, so the explanation payload
(reason strings, diagnostic fields) is not carried. -/
structure RecommendationItem where
  post_id : ℤ
  score : ℚ
  rank : ℕ
  deriving DecidableEq, Repr

/-- The filtering loop of `RuleBasedKNNRecommender.recommend` (lines
245-278): drop posts in the exclusion set, posts authored by the requester,
posts whose author cannot be resolved, and posts whose distance computation
fails (the caught-exception path); keep the rest with their squared
distance. -/
def collectCandidates (db : DB) (member : Member) (user_id : ℤ)
    (excluded : Finset ℤ) (gender_weight age_weight : ℚ) :
    List RecruitPost → List Candidate
  | [] => []
  | post :: rest =>
    if post.recruit_post_id ∈ excluded then
      collectCandidates db member user_id excluded gender_weight age_weight rest
    else if post.member_id = user_id then
      collectCandidates db member user_id excluded gender_weight age_weight rest
    else
      match db.members.find? (fun m => m.member_id = post.member_id) with
      | none => collectCandidates db member user_id excluded gender_weight age_weight rest
      | some author =>
        match calculate_weighted_euclidean_distanceSq
            (memberFeatureVector member) (authorFeatureVector post author)
            (create_weight_vector gender_weight age_weight) with
        | none => collectCandidates db member user_id excluded gender_weight age_weight rest
        | some d =>
          ⟨post, author, d⟩ ::
            collectCandidates db member user_id excluded gender_weight age_weight rest

/-- The final conversion loop of `RuleBasedKNNRecommender.recommend` (lines
288-309): `enumerate(top_candidates, start=1)`; the score is the
explanation's score when explanations are requested and `0.0` otherwise.
`sc` is the score assignment (a function of the squared distance) standing
for `generate_explanation`'s `clamp(1 - distance/maxDistance, 0, 1)`. -/
def rankCandidates (sc : ℚ → ℚ) (include_explanations : Bool) :
    ℕ → List Candidate → List RecommendationItem
  | _, [] => []
  | rank, c :: rest =>
    { post_id := c.post.recruit_post_id,
      score := if include_explanations then sc c.distSq else 0,
      rank := rank } :: rankCandidates sc include_explanations (rank + 1) rest

/-- `RuleBasedKNNRecommender.recommend` (lines 210-312): look up the member
(empty result when absent), collect the exclusion set, filter the recruiting
posts, sort ascending by distance (stably; sorting by the squared distance —
the key the code uses is the `sqrt`, a strictly monotone image), take the top
`limit`, and rank from 1. -/
def ruleRecommend (db : DB) (gender_weight age_weight : ℚ) (sc : ℚ → ℚ)
    (user_id : ℤ) (limit : ℕ) (include_explanations : Bool) :
    List RecommendationItem :=
  match db.members.find? (fun m => m.member_id = user_id) with
  | none => []
  | some member =>
    let excluded := get_member_exclusions db user_id
    let recruiting := db.posts.filter (fun p => p.recruit_status = "RECRUITING")
    let candidates :=
      collectCandidates db member user_id excluded gender_weight age_weight recruiting
    let sorted := List.insertionSort (fun c d => c.distSq ≤ d.distSq) candidates
    rankCandidates sc include_explanations 1 (sorted.take limit)

/-! ## config_loader.py -/

/-- One entry of the `weights.<phase>` JSON object; each field is optional
because `get_weights` falls back per key (`weights.get("rule_based", 1.0)`,
`weights.get("matrix_factorization", 0.0)`). -/
structure WeightEntry where
  rule_based : Option ℚ
  matrix_factorization : Option ℚ
  deriving DecidableEq, Repr

/-- The blend-weight pair `get_weights` returns. -/
structure Weights where
  rule_based : ℚ
  matrix_factorization : ℚ
  deriving DecidableEq, Repr

/-- The slice of `config.json` the recommender and the phase jobs read.
Nested-key lookups with defaults (`ConfigLoader.get`) are modelled by
`Option` fields (`phase.current`, the per-phase weight entries) where a
claim depends on key absence, and by plain fields holding the looked-up
value elsewhere. -/
structure Config where
  /-- `phase.current`; `none` models an absent or null value
  (`get_current_phase` falls back to `"P1"`). -/
  phase_current : Option String
  /-- the `weights` object, keyed by phase name. -/
  weights : List (String × WeightEntry)
  /-- `rule_based.feature_weights.gender` (default 5.0). -/
  gender_weight : ℚ
  /-- `rule_based.feature_weights.age` (default 3.0). -/
  age_weight : ℚ
  /-- `phase.interaction_count` (default 0). -/
  interaction_count : ℕ
  /-- `phase.auto_transition_enabled` (default True). -/
  auto_transition_enabled : Bool
  /-- `phase.thresholds.P2.min` (default 100). -/
  p2_min : ℕ
  /-- `phase.thresholds.P3.min` (default 1000). -/
  p3_min : ℕ
  /-- `phase.transition_criteria.evaluation_interval` (default 100). -/
  evaluation_interval : ℕ
  /-- `phase.transition_criteria.min_improvement_ratio` (default 1.1). -/
  min_improvement_ratio : ℚ
  /-- `phase.transition_criteria.metrics.precision_at_10.weight` (default 0.5). -/
  precision_weight : ℚ
  /-- `phase.transition_criteria.metrics.recall_at_10.weight` (default 0.3). -/
  recall_weight : ℚ
  /-- `phase.transition_criteria.metrics.ndcg_at_10.weight` (default 0.2). -/
  ndcg_weight : ℚ
  deriving Repr

/-- `ConfigLoader.get_current_phase`: `self.get("phase.current", "P1")`. -/
def get_current_phase (cfg : Config) : String :=
  cfg.phase_current.getD "P1"

/-- `ConfigLoader.get_weights` (config_loader.py lines 149-167): look up
`weights.<phase>` (an absent phase yields the empty dict), then default the
two keys to `1.0` and `0.0` respectively. -/
def get_weights (cfg : Config) (phase : String) : Weights :=
  match cfg.weights.lookup phase with
  | none => { rule_based := 1, matrix_factorization := 0 }
  | some e =>
    { rule_based := e.rule_based.getD 1,
      matrix_factorization := e.matrix_factorization.getD 0 }

/-! ## hybrid_recommender.py -/

/-- The head and folded min of a value list: `min(scores.values())`. -/
def listMin : List ℚ → ℚ
  | [] => 0
  | v :: vs => vs.foldl min v

/-- The head and folded max of a value list: `max(scores.values())`. -/
def listMax : List ℚ → ℚ
  | [] => 0
  | v :: vs => vs.foldl max v

/-- `HybridRecommender.normalize_scores` (lines 101-123): min-max normalise
a score dictionary into `[0,1]`; an all-equal collection maps to the
constant `0.5`; the empty dictionary maps to itself.  Dictionaries are
key-value lists (keys unique at every call site). -/
def normalize_scores (scores : List (ℤ × ℚ)) : List (ℤ × ℚ) :=
  match scores with
  | [] => []
  | _ =>
    let min_score := listMin (scores.map Prod.snd)
    let max_score := listMax (scores.map Prod.snd)
    if max_score = min_score then
      scores.map (fun p => (p.1, (1 : ℚ) / 2))
    else
      scores.map (fun p => (p.1, (p.2 - min_score) / (max_score - min_score)))

/-- `HybridRecommender.get_mf_predictions` (lines 71-99): one prediction per
post id.  The loaded model object is the abstract predictor
`predict : user → post → rating`; the per-item exception branch
(default rating 3.0) is folded into the abstract predictor, which is total. -/
def get_mf_predictions (predict : ℤ → ℤ → ℚ) (user_id : ℤ)
    (post_ids : List ℤ) : List (ℤ × ℚ) :=
  post_ids.map (fun pid => (pid, predict user_id pid))

/-- The result-assembly loop of `HybridRecommender.blend_recommendations`
(lines 176-209): walk the sorted-and-truncated ids with
`enumerate(..., start=1)`; an id present among the rule items reuses that
item with the blended score and new rank; otherwise the post is fetched from
the database (a missing post consumes the rank but appends nothing). -/
def assembleBlended (db : DB) (rule_items : List RecommendationItem)
    (blended : ℤ → ℚ) : ℕ → List ℤ → List RecommendationItem
  | _, [] => []
  | rank, pid :: rest =>
    if (rule_items.find? (fun it => it.post_id = pid)).isSome then
      { post_id := pid, score := blended pid, rank := rank } ::
        assembleBlended db rule_items blended (rank + 1) rest
    else
      match db.posts.find? (fun p => p.recruit_post_id = pid) with
      | some _ =>
        { post_id := pid, score := blended pid, rank := rank } ::
          assembleBlended db rule_items blended (rank + 1) rest
      | none => assembleBlended db rule_items blended (rank + 1) rest

/-- `HybridRecommender.blend_recommendations` (lines 125-211): normalise the
rule scores and the MF predictions independently, take the union of the two
key sets, blend with the weighted average (`dict.get(pid, 0.0)` for missing
entries), sort descending by blended score (stably), truncate to `limit`,
and re-rank from 1. -/
def blend_recommendations (db : DB) (rule_items : List RecommendationItem)
    (mf_predictions : List (ℤ × ℚ)) (rule_weight mf_weight : ℚ)
    (limit : ℕ) : List RecommendationItem :=
  let rule_scores : List (ℤ × ℚ) :=
    rule_items.map (fun it => (it.post_id, it.score))
  let rule_scores_norm := normalize_scores rule_scores
  let mf_scores_norm := normalize_scores mf_predictions
  let all_post_ids :=
    (rule_scores.map Prod.fst ++ mf_predictions.map Prod.fst).dedup
  let blended : ℤ → ℚ := fun pid =>
    (rule_scores_norm.lookup pid).getD 0 * rule_weight +
      (mf_scores_norm.lookup pid).getD 0 * mf_weight
  let sorted_post_ids :=
    (List.insertionSort (fun x y => blended y ≤ blended x) all_post_ids).take limit
  assembleBlended db rule_items blended 1 sorted_post_ids

/-- `HybridRecommender.recommend` (lines 213-294).  `mfModel` is the loaded
MF artifact (`none` = the file is absent or unpicklable, the `load_mf_model`
failure path).  Phase `P1` or a zero MF weight short-circuits to the
rule-based recommender; otherwise the rule recommender is run with twice the
limit, and either blended with MF predictions over the rule ids united with
up to 50 additional recruiting posts, or (on model-load failure) truncated
to `limit`. -/
def hybridRecommend (db : DB) (cfg : Config)
    (mfModel : Option (ℤ → ℤ → ℚ)) (sc : ℚ → ℚ) (user_id : ℤ)
    (limit : ℕ) (include_explanations : Bool) : List RecommendationItem :=
  let current_phase := get_current_phase cfg
  let weights := get_weights cfg current_phase
  let rule_weight := weights.rule_based
  let mf_weight := weights.matrix_factorization
  if current_phase = "P1" ∨ mf_weight = 0 then
    ruleRecommend db cfg.gender_weight cfg.age_weight sc user_id limit
      include_explanations
  else
    let rule_items :=
      ruleRecommend db cfg.gender_weight cfg.age_weight sc user_id (limit * 2)
        include_explanations
    if rule_items.isEmpty then []
    else
      match mfModel with
      | none => rule_items.take limit
      | some predict =>
        let rule_post_ids := rule_items.map (fun it => it.post_id)
        let additional_posts :=
          (db.posts.filter (fun p => p.recruit_status = "RECRUITING")).take 50
        let all_post_ids :=
          (rule_post_ids ++ additional_posts.map
            (fun p => p.recruit_post_id)).dedup
        let mf_predictions := get_mf_predictions predict user_id all_post_ids
        blend_recommendations db rule_items mf_predictions rule_weight
          mf_weight limit

/-! ## Retrieval metrics (scripts/compare_phases.py lines 82-110; the same
functions appear verbatim in scripts/evaluate_model.py lines 123-210) -/

/-- `precision_at_k`: `len(set(recommended[:k]) & relevant) / k` guarded by
`k > 0`. -/
def precision_at_k (recommended : List ℤ) (relevant : Finset ℤ) (k : ℕ) : ℚ :=
  let recommended_k := recommended.take k
  let num_relevant_and_recommended := (recommended_k.toFinset ∩ relevant).card
  if k > 0 then (num_relevant_and_recommended : ℚ) / k else 0

/-- `recall_at_k`: `len(set(recommended[:k]) & relevant) / len(relevant)`
guarded by `len(relevant) > 0`. -/
def recall_at_k (recommended : List ℤ) (relevant : Finset ℤ) (k : ℕ) : ℚ :=
  let recommended_k := recommended.take k
  let num_relevant_and_recommended := (recommended_k.toFinset ∩ relevant).card
  let num_relevant := relevant.card
  if num_relevant > 0 then
    (num_relevant_and_recommended : ℚ) / num_relevant
  else 0

/-- The combinatorial content of the DCG loop of `ndcg_at_k`: the 1-based
positions `i` of `recommended[:k]` whose item is relevant.  The code's DCG
is `Σ` over this list of `1 / log2(i + 1)`; that real-valued sum appears in
the theorems. -/
def dcgPositions (recommended : List ℤ) (relevant : Finset ℤ) (k : ℕ) :
    List ℕ :=
  (recommended.take k).enum.filterMap
    (fun p => if p.2 ∈ relevant then some (p.1 + 1) else none)

/-- The combinatorial content of the IDCG loop of `ndcg_at_k`: the loop runs
`i = 1 .. min(len(relevant), k)` and adds `1 / log2(i + 1)` each step. -/
def idcgCount (relevant : Finset ℤ) (k : ℕ) : ℕ :=
  min relevant.card k

/-! ## compare_phases.py — phase comparison -/

/-- One phase's evaluation result (the metric fields of
`PhaseComparator.evaluate_phase`'s return value). -/
structure Metrics where
  precision_at_10 : ℚ
  recall_at_10 : ℚ
  ndcg_at_10 : ℚ
  deriving DecidableEq, Repr

/-- `PhaseComparator.calculate_weighted_score` (lines 190-212):
`precision*w_p + recall*w_r + ndcg*w_n` with the configured metric weights. -/
def calculate_weighted_score (cfg : Config) (m : Metrics) : ℚ :=
  m.precision_at_10 * cfg.precision_weight +
    m.recall_at_10 * cfg.recall_weight +
    m.ndcg_at_10 * cfg.ndcg_weight

/-- `phase_order = ["P1", "P2", "P3"]` (compare_phases.py line 250). -/
def phase_order : List String := ["P1", "P2", "P3"]

/-- `PhaseComparator.compare_and_recommend` (lines 214-275): compute the
composite score per evaluated phase, then — unless already at the top
phase — promote to the immediate next phase exactly when
`improvement_ratio >= min_improvement_ratio` where `improvement_ratio` is
`next_score / current_score` for positive `current_score` and `0`
otherwise; in every other case hold the current phase.  `none` models the
`ValueError` of `phase_order.index` on a phase outside `phase_order`. -/
def compare_and_recommend (cfg : Config) (results : List (String × Metrics))
    (current_phase : String) : Option String :=
  let scores : List (String × ℚ) :=
    results.map (fun pm => (pm.1, calculate_weighted_score cfg pm.2))
  let min_improvement := cfg.min_improvement_ratio
  let current_score := (scores.lookup current_phase).getD 0
  match phase_order.findIdx? (fun p => p = current_phase) with
  | none => none
  | some current_idx =>
    if current_idx < phase_order.length - 1 then
      let next_phase := phase_order.getD (current_idx + 1) ""
      let next_score := (scores.lookup next_phase).getD 0
      let improvement_ratio :=
        if current_score > 0 then next_score / current_score else 0
      if improvement_ratio ≥ min_improvement then some next_phase
      else some current_phase
    else some current_phase

/-- `PhaseComparator.run` (lines 305-358).  The test-data load and the
per-user evaluation loop are abstracted: `evaluable_user_count` is
`len(user_relevant_items)` and `evalMetrics` the result of
`evaluate_phase` per phase.  Fewer than 5 evaluable users makes the run
inconclusive: the comparator logs a warning and returns `None` without
evaluating or writing anything.  Otherwise it evaluates the current phase
and (below the top phase) the next phase, and returns the recommendation. -/
def phaseComparatorRun (cfg : Config) (evaluable_user_count : ℕ)
    (evalMetrics : String → Metrics) (current_phase : String) :
    Option String :=
  if evaluable_user_count < 5 then none
  else
    let phases_to_evaluate :=
      match phase_order.findIdx? (fun p => p = current_phase) with
      | some current_idx =>
        if current_idx < phase_order.length - 1 then
          [current_phase, phase_order.getD (current_idx + 1) ""]
        else [current_phase]
      | none => [current_phase]
    let results := phases_to_evaluate.map (fun ph => (ph, evalMetrics ph))
    compare_and_recommend cfg results current_phase

/-! ## update_phase.py — the phase-update job -/

/-- `PhaseUpdater.should_evaluate_phase_transition` (lines 75-115): requires
auto-transition enabled, at least `phase.thresholds.P2.min` interactions,
and a newly crossed `evaluation_interval` milestone. -/
def should_evaluate_phase_transition (cfg : Config)
    (current_count last_count : ℕ) : Bool :=
  if ¬ cfg.auto_transition_enabled then false
  else if current_count < cfg.p2_min then false
  else
    let evaluation_interval := cfg.evaluation_interval
    let current_milestone := current_count / evaluation_interval * evaluation_interval
    let last_milestone := last_count / evaluation_interval * evaluation_interval
    decide (current_milestone > last_milestone)

/-- `PhaseUpdater.get_phase_by_interaction_count` (lines 117-137). -/
def get_phase_by_interaction_count (cfg : Config) (count : ℕ) : String :=
  if count ≥ cfg.p3_min then "P3"
  else if count ≥ cfg.p2_min then "P2"
  else "P1"

/-- `PhaseUpdater.run` (lines 185-253), returning the persisted
configuration.  `db_interaction_count` abstracts `count_interactions()`;
`evaluable_user_count` and `evalMetrics` feed the comparator (see
`phaseComparatorRun`; `run_phase_comparison` propagates the comparator's
return value, catching only exceptions — an inconclusive `None` result is
passed through).  Python's `recommended_phase != current_phase` compares a
possibly-`None` value against a string, so `new_phase` is an `Option`: the
written `phase.current` is whatever `new_phase` holds. -/
def phaseUpdaterRun (cfg : Config) (db_interaction_count : ℕ)
    (evaluable_user_count : ℕ) (evalMetrics : String → Metrics) : Config :=
  let last_interaction_count := cfg.interaction_count
  let current_phase := get_current_phase cfg
  let should_evaluate :=
    should_evaluate_phase_transition cfg db_interaction_count
      last_interaction_count
  let new_phase : Option String :=
    if should_evaluate then
      let recommended_phase :=
        phaseComparatorRun cfg evaluable_user_count evalMetrics current_phase
      if recommended_phase ≠ some current_phase then recommended_phase
      else some current_phase
    else if ¬ cfg.auto_transition_enabled then
      some (get_phase_by_interaction_count cfg db_interaction_count)
    else some current_phase
  if new_phase ≠ some current_phase ∨
      db_interaction_count ≠ last_interaction_count then
    { cfg with phase_current := new_phase,
               interaction_count := db_interaction_count }
  else
    { cfg with interaction_count := db_interaction_count }

/-! ## Concrete scenario for the exclusion invariant (claim C1)

A two-member, two-post database in which requester 1 has bookmarked post 99
(so 99 is in requester 1's exclusion set) while post 99 is still
`RECRUITING`.  Under phase P2 the hybrid path unites the rule-based ids with
up to 50 additional recruiting posts fetched *without* exclusion filtering
(hybrid_recommender.py lines 272-280), so post 99 re-enters through the
MF-only branch of `blend_recommendations`. -/

/-- Requester of the C1 scenario. -/
def c1_requester : Member :=
  { member_id := 1, gender := "MAN", age := 25,
    preferred_gender := some "NONE",
    preferred_life_style := some "MORNING",
    preferred_personality := some "INTROVERT",
    possible_smoking := false, possible_snoring := false,
    has_pet_allowed := false, cohabitant_count := some 1,
    my_lifestyle := some "MORNING", my_personality := some "INTROVERT",
    is_smoking := false, is_snoring := false, has_pet := false }

/-- Author of both posts of the C1 scenario. -/
def c1_author : Member :=
  { member_id := 2, gender := "MAN", age := 26,
    preferred_gender := some "NONE",
    preferred_life_style := some "MORNING",
    preferred_personality := some "INTROVERT",
    possible_smoking := false, possible_snoring := false,
    has_pet_allowed := false, cohabitant_count := some 1,
    my_lifestyle := some "MORNING", my_personality := some "INTROVERT",
    is_smoking := false, is_snoring := false, has_pet := false }

/-- Database of the C1 scenario: posts 10 and 99 are both recruiting and
authored by member 2; requester 1 has bookmarked post 99. -/
def c1_db : DB :=
  { members := [c1_requester, c1_author],
    posts :=
      [ { recruit_post_id := 10, recruit_count := 1,
          recruit_status := "RECRUITING", member_id := 2 },
        { recruit_post_id := 99, recruit_count := 1,
          recruit_status := "RECRUITING", member_id := 2 } ],
    bookmarks := [{ member_id := 1, recruit_post_id := 99 }],
    applyRecords := [] }

/-- Configuration of the C1 scenario: phase P2 with the documented
P2 blend weights (rule 0.6, MF 0.4). -/
def c1_cfg : Config :=
  { phase_current := some "P2",
    weights :=
      [("P2", { rule_based := some (3 / 5),
                matrix_factorization := some (2 / 5) })],
    gender_weight := 5, age_weight := 3,
    interaction_count := 0, auto_transition_enabled := true,
    p2_min := 100, p3_min := 1000, evaluation_interval := 100,
    min_improvement_ratio := 11 / 10,
    precision_weight := 1 / 2, recall_weight := 3 / 10,
    ndcg_weight := 1 / 5 }

/-- MF predictor of the C1 scenario: rates the excluded post 99 highest. -/
def c1_predict : ℤ → ℤ → ℚ :=
  fun _ post_id => if post_id = 99 then 5 else 1

/-- C1: the exclusion invariant — "no listing in the requester's exclusion
set (self-authored, bookmarked, applied-to) ever appears in that requester's
result set, on both the similarity-only and the hybrid path" — is violated
by the code on the hybrid path.  In the concrete scenario, post 99 is in
requester 1's exclusion set (it is bookmarked), the similarity-only path
correctly omits it, yet the hybrid (blended) path returns it — ranked
first.  The additional recruiting posts fetched for MF prediction are not
exclusion-filtered, so `blend_recommendations` reintroduces the excluded
post through its MF-only branch. -/
theorem c1_hybrid_path_returns_excluded_post :
    (99 : ℤ) ∈ get_member_exclusions c1_db 1 ∧
    (ruleRecommend c1_db 5 3 (fun _ => 0) 1 2 false).map
      (fun it => it.post_id) = [10] ∧
    (hybridRecommend c1_db c1_cfg (some c1_predict) (fun _ => 0) 1 2
        false).map (fun it => it.post_id) = [99, 10] := by
  with_unfolding_all decide

/-! ## Concrete scenario for the inconclusive-evaluation run (claim C3) -/

/-- Configuration of the C3 scenario: phase P1, auto transition enabled,
default thresholds, no interactions counted yet. -/
def c3_cfg : Config :=
  { phase_current := some "P1",
    weights := [],
    gender_weight := 5, age_weight := 3,
    interaction_count := 0, auto_transition_enabled := true,
    p2_min := 100, p3_min := 1000, evaluation_interval := 100,
    min_improvement_ratio := 11 / 10,
    precision_weight := 1 / 2, recall_weight := 3 / 10,
    ndcg_weight := 1 / 5 }

/-- C3: with fewer than 5 evaluable users the comparator run is indeed
declared inconclusive (`PhaseComparator.run` returns `None`), but the
phase-update job does **not** leave the persisted phase unchanged: when an
evaluation is due (here, 100 interactions reach the first milestone) the
updater compares the `None` result against the current phase string, finds
them different, adopts `None` as the new phase and persists it —
overwriting `phase.current` (previously `"P1"`) with null. -/
theorem c3_inconclusive_run_overwrites_phase :
    phaseComparatorRun c3_cfg 4 (fun _ => ⟨0, 0, 0⟩) "P1" = none ∧
    c3_cfg.phase_current = some "P1" ∧
    (phaseUpdaterRun c3_cfg 100 4 (fun _ => ⟨0, 0, 0⟩)).phase_current
      = none := by
  with_unfolding_all decide

/-! ## Helper lemmas: ranking commutes with truncation -/

/-- Truncating a ranked list is ranking the truncated list: the rank of an
item depends only on its position. -/
theorem rankCandidates_take (sc : ℚ → ℚ) (incl : Bool) (r n : ℕ)
    (l : List Candidate) :
    (rankCandidates sc incl r l).take n = rankCandidates sc incl r (l.take n) := by
  induction l generalizing r n with
  | nil => simp [rankCandidates]
  | cons c rest ih =>
    cases n with
    | zero => simp [rankCandidates]
    | succ m => simp [rankCandidates, List.take_succ_cons, ih]

/-- Running the rule-based recommender with twice the limit and truncating
to the limit is the same as running it with the limit: the candidate pool,
the sort and the position-based ranks are unchanged. -/
theorem ruleRecommend_take (db : DB) (gw aw : ℚ) (sc : ℚ → ℚ) (user_id : ℤ)
    (limit : ℕ) (incl : Bool) :
    (ruleRecommend db gw aw sc user_id (limit * 2) incl).take limit =
      ruleRecommend db gw aw sc user_id limit incl := by
  unfold ruleRecommend
  cases h : db.members.find? (fun m => m.member_id = user_id) with
  | none => simp
  | some member =>
    simp only [rankCandidates_take, List.take_take]
    have : limit ⊓ (limit * 2) = limit := by omega
    rw [this]

/-- C10: a phase string with no entry in the `weights` configuration gets
the defaults `rule_based = 1.0`, `matrix_factorization = 0.0` from
`get_weights`, and a recommendation request under such a phase therefore
takes the similarity-only path (the zero MF weight short-circuits the
hybrid recommender to the rule-based recommender) instead of failing. -/
theorem c10_unknown_phase_gets_default_weights (cfg : Config) (phase : String)
    (h : cfg.weights.lookup phase = none) :
    get_weights cfg phase = { rule_based := 1, matrix_factorization := 0 } ∧
    (∀ (db : DB) (mfModel : Option (ℤ → ℤ → ℚ)) (sc : ℚ → ℚ) (user_id : ℤ)
        (limit : ℕ) (incl : Bool),
      cfg.phase_current = some phase →
      hybridRecommend db cfg mfModel sc user_id limit incl =
        ruleRecommend db cfg.gender_weight cfg.age_weight sc user_id limit
          incl) := by
  constructor
  · simp [get_weights, h]
  · intro db mfModel sc user_id limit incl hcur
    simp [hybridRecommend, get_current_phase, hcur, get_weights, h]

/-- Closed instance of `c10_unknown_phase_gets_default_weights` at a
configuration whose `weights` object is empty and whose current phase is
the unknown string `"P9"`. -/
theorem c10_witness :
    get_weights c3_cfg "P9" = { rule_based := 1, matrix_factorization := 0 } ∧
    hybridRecommend c1_db { c3_cfg with phase_current := some "P9" }
        none (fun _ => 0) 1 2 false =
      ruleRecommend c1_db 5 3 (fun _ => 0) 1 2 false := by
  have h := c10_unknown_phase_gets_default_weights
    { c3_cfg with phase_current := some "P9" } "P9" (by decide)
  exact ⟨h.1, h.2 c1_db none (fun _ => 0) 1 2 false rfl⟩

/-- C2: whenever the current phase's MF weight is 0 (in particular under
phase P1's default weights) or the MF artifact cannot be loaded, the hybrid
recommender returns exactly the rule-based recommender's own top-N —
identical candidates, ranking and scores — for every user id, limit and
explanation flag.  With a zero weight the blend is skipped outright; with a
missing artifact the rule recommender's double-length list is truncated,
which equals the direct top-`limit` list. -/
theorem c2_blend_skipped_equals_rule_only (db : DB) (cfg : Config)
    (mfModel : Option (ℤ → ℤ → ℚ)) (sc : ℚ → ℚ) (user_id : ℤ) (limit : ℕ)
    (incl : Bool)
    (h : (get_weights cfg (get_current_phase cfg)).matrix_factorization = 0 ∨
      mfModel = none) :
    hybridRecommend db cfg mfModel sc user_id limit incl =
      ruleRecommend db cfg.gender_weight cfg.age_weight sc user_id limit
        incl := by
  unfold hybridRecommend
  rcases h with h | h
  · rw [if_pos (Or.inr h)]
  · by_cases hw :
      get_current_phase cfg = "P1" ∨
        (get_weights cfg (get_current_phase cfg)).matrix_factorization = 0
    · rw [if_pos hw]
    · rw [if_neg hw, h]
      by_cases he :
        (ruleRecommend db cfg.gender_weight cfg.age_weight sc user_id
          (limit * 2) incl).isEmpty
      · rw [if_pos he]
        rw [List.isEmpty_iff] at he
        rw [← ruleRecommend_take db cfg.gender_weight cfg.age_weight sc
          user_id limit incl, he, List.take_nil]
      · rw [if_neg he]
        exact ruleRecommend_take db cfg.gender_weight cfg.age_weight sc
          user_id limit incl

/-- Closed instance of `c2_blend_skipped_equals_rule_only`: in the C1
scenario database with the MF artifact missing, the hybrid result under
phase P2 equals the rule-based result. -/
theorem c2_witness :
    hybridRecommend c1_db c1_cfg none (fun _ => 0) 1 2 false =
      ruleRecommend c1_db 5 3 (fun _ => 0) 1 2 false := by
  exact c2_blend_skipped_equals_rule_only c1_db c1_cfg none (fun _ => 0) 1 2
    false (Or.inr rfl)

/-! ## Helper lemmas: folded minima and maxima of value lists -/

/-- The folded minimum is at most the initial accumulator. -/
theorem foldl_min_le_init (l : List ℚ) (b : ℚ) : l.foldl min b ≤ b := by
  induction l generalizing b with
  | nil => exact le_refl b
  | cons x xs ih => exact le_trans (ih (min b x)) (min_le_left b x)

/-- The folded minimum is at most every list element. -/
theorem foldl_min_le_of_mem : ∀ (l : List ℚ) (b : ℚ) {a : ℚ}, a ∈ l →
    l.foldl min b ≤ a
  | x :: xs, b, a, h => by
    rcases List.mem_cons.mp h with rfl | hmem
    · exact le_trans (foldl_min_le_init xs (min b a)) (min_le_right b a)
    · exact foldl_min_le_of_mem xs (min b x) hmem

/-- A lower bound of the accumulator and of every element bounds the folded
minimum. -/
theorem le_foldl_min {l : List ℚ} {c b : ℚ} (hb : c ≤ b)
    (h : ∀ x ∈ l, c ≤ x) : c ≤ l.foldl min b := by
  induction l generalizing b with
  | nil => exact hb
  | cons x xs ih =>
    exact ih (le_min hb (h x (List.mem_cons_self x xs))) fun y hy =>
      h y (List.mem_cons_of_mem x hy)

/-- The folded maximum is at least the initial accumulator. -/
theorem init_le_foldl_max (l : List ℚ) (b : ℚ) : b ≤ l.foldl max b := by
  induction l generalizing b with
  | nil => exact le_refl b
  | cons x xs ih => exact le_trans (le_max_left b x) (ih (max b x))

/-- The folded maximum is at least every list element. -/
theorem le_foldl_max_of_mem : ∀ (l : List ℚ) (b : ℚ) {a : ℚ}, a ∈ l →
    a ≤ l.foldl max b
  | x :: xs, b, a, h => by
    rcases List.mem_cons.mp h with rfl | hmem
    · exact le_trans (le_max_right b a) (init_le_foldl_max xs (max b a))
    · exact le_foldl_max_of_mem xs (max b x) hmem

/-- An upper bound of the accumulator and of every element bounds the folded
maximum. -/
theorem foldl_max_le {l : List ℚ} {c b : ℚ} (hb : b ≤ c)
    (h : ∀ x ∈ l, x ≤ c) : l.foldl max b ≤ c := by
  induction l generalizing b with
  | nil => exact hb
  | cons x xs ih =>
    exact ih (max_le hb (h x (List.mem_cons_self x xs))) fun y hy =>
      h y (List.mem_cons_of_mem x hy)

/-- `listMin` of a nonempty list is at most every element. -/
theorem listMin_le {l : List ℚ} {a : ℚ} (h : a ∈ l) : listMin l ≤ a := by
  cases l with
  | nil => cases h
  | cons v vs =>
    rcases List.mem_cons.mp h with rfl | hmem
    · exact foldl_min_le_init vs a
    · exact foldl_min_le_of_mem vs v hmem

/-- A lower bound of every element bounds `listMin` of a nonempty list. -/
theorem le_listMin {l : List ℚ} {c : ℚ} (hne : l ≠ [])
    (h : ∀ x ∈ l, c ≤ x) : c ≤ listMin l := by
  cases l with
  | nil => exact absurd rfl hne
  | cons v vs =>
    exact le_foldl_min (h v (List.mem_cons_self v vs)) fun y hy =>
      h y (List.mem_cons_of_mem v hy)

/-- Every element is at most `listMax`. -/
theorem le_listMax {l : List ℚ} {a : ℚ} (h : a ∈ l) : a ≤ listMax l := by
  cases l with
  | nil => cases h
  | cons v vs =>
    rcases List.mem_cons.mp h with rfl | hmem
    · exact init_le_foldl_max vs a
    · exact le_foldl_max_of_mem vs v hmem

/-- An upper bound of every element bounds `listMax` of a nonempty list. -/
theorem listMax_le {l : List ℚ} {c : ℚ} (hne : l ≠ [])
    (h : ∀ x ∈ l, x ≤ c) : listMax l ≤ c := by
  cases l with
  | nil => exact absurd rfl hne
  | cons v vs =>
    exact foldl_max_le (h v (List.mem_cons_self v vs)) fun y hy =>
      h y (List.mem_cons_of_mem v hy)

/-- C7: min-max normalisation maps every nonempty all-identical score
collection to the constant 0.5, and is the identity on any collection whose
values span the full `[0,1]` range (minimum 0 and maximum 1 attained). -/
theorem c7_normalize_scores_constant_and_idempotent
    (scores : List (ℤ × ℚ)) :
    (∀ c : ℚ, scores ≠ [] → (∀ p ∈ scores, p.2 = c) →
      normalize_scores scores = scores.map (fun p => (p.1, (1 : ℚ) / 2))) ∧
    ((∃ p ∈ scores, p.2 = 0) → (∃ p ∈ scores, p.2 = 1) →
      (∀ p ∈ scores, 0 ≤ p.2 ∧ p.2 ≤ 1) →
      normalize_scores scores = scores) := by
  constructor
  · intro c hne hall
    match scores with
    | [] => exact absurd rfl hne
    | q :: rest =>
      have hmin : listMin ((q :: rest).map Prod.snd) = c := by
        apply le_antisymm
        · exact listMin_le (by
            simp only [List.map_cons, List.mem_cons]
            exact Or.inl (hall q (List.mem_cons_self q rest)).symm)
        · exact le_listMin (by simp) (by
            intro x hx
            rcases List.mem_map.mp hx with ⟨p, hp, rfl⟩
            exact le_of_eq (hall p hp).symm)
      have hmax : listMax ((q :: rest).map Prod.snd) = c := by
        apply le_antisymm
        · exact listMax_le (by simp) (by
            intro x hx
            rcases List.mem_map.mp hx with ⟨p, hp, rfl⟩
            exact le_of_eq (hall p hp))
        · exact le_listMax (by
            simp only [List.map_cons, List.mem_cons]
            exact Or.inl (hall q (List.mem_cons_self q rest)).symm)
      simp only [normalize_scores, hmin, hmax, eq_self_iff_true, if_true]
  · intro h0 h1 hall
    match scores with
    | [] => rfl
    | q :: rest =>
      rcases h0 with ⟨p0, hp0, hv0⟩
      rcases h1 with ⟨p1, hp1, hv1⟩
      have hmin : listMin ((q :: rest).map Prod.snd) = 0 := by
        apply le_antisymm
        · exact listMin_le (List.mem_map.mpr ⟨p0, hp0, hv0⟩)
        · exact le_listMin (by simp) (by
            intro x hx
            rcases List.mem_map.mp hx with ⟨p, hp, rfl⟩
            exact (hall p hp).1)
      have hmax : listMax ((q :: rest).map Prod.snd) = 1 := by
        apply le_antisymm
        · exact listMax_le (by simp) (by
            intro x hx
            rcases List.mem_map.mp hx with ⟨p, hp, rfl⟩
            exact (hall p hp).2)
        · exact le_listMax (List.mem_map.mpr ⟨p1, hp1, hv1⟩)
      simp only [normalize_scores, hmin, hmax,
        if_neg (by norm_num : (1 : ℚ) ≠ 0)]
      have hfun : (fun p : ℤ × ℚ => (p.1, (p.2 - 0) / (1 - 0))) =
          fun p => p := by
        funext p
        simp
      rw [hfun, List.map_id']

/-- Closed instance of `c7_normalize_scores_constant_and_idempotent`: an
all-identical two-entry collection normalises to the constant 0.5, and the
already-normalised collection `[(1,0), (2,1/2), (3,1)]` is returned
unchanged. -/
theorem c7_witness :
    normalize_scores [(1, 3), (2, 3)] = [(1, 1 / 2), (2, 1 / 2)] ∧
    normalize_scores [(1, 0), (2, 1 / 2), (3, 1)] =
      [(1, 0), (2, 1 / 2), (3, 1)] := by
  constructor
  · exact ((c7_normalize_scores_constant_and_idempotent
      [(1, 3), (2, 3)]).1 3 (by decide) (by decide)).trans
      (by with_unfolding_all decide)
  · exact (c7_normalize_scores_constant_and_idempotent
      [(1, 0), (2, 1 / 2), (3, 1)]).2 ⟨(1, 0), by norm_num⟩
      ⟨(3, 1), by norm_num⟩ (by with_unfolding_all decide)


/-- C4: the controller's decision as a function of the per-phase composite
scores.  With `σ(ph)` the composite score looked up with default 0 and
`ratio = σ(next)/σ(current)` when `σ(current) > 0` (0 otherwise), the
decision is the immediate next phase exactly when the current phase is not
the top phase "P3" and `ratio ≥ min_improvement_ratio`, and the current
phase in every other case; in particular the returned phase is never
earlier than the current one (its index in `phase_order` never
decreases). -/
theorem c4_promotion_decision (cfg : Config)
    (results : List (String × Metrics)) (current : String)
    (h : current ∈ phase_order) :
    (compare_and_recommend cfg results current =
      some
        (if current ≠ "P3" ∧
            (if (0 : ℚ) < ((results.map (fun pm =>
                    (pm.1, calculate_weighted_score cfg pm.2))).lookup
                  current).getD 0
              then ((results.map (fun pm =>
                    (pm.1, calculate_weighted_score cfg pm.2))).lookup
                  (if current = "P1" then "P2" else "P3")).getD 0 /
                ((results.map (fun pm =>
                    (pm.1, calculate_weighted_score cfg pm.2))).lookup
                  current).getD 0
              else 0) ≥ cfg.min_improvement_ratio
          then (if current = "P1" then "P2" else "P3")
          else current)) ∧
    ∀ r, compare_and_recommend cfg results current = some r →
      phase_order.indexOf current ≤ phase_order.indexOf r := by
  simp only [phase_order, List.mem_cons, List.not_mem_nil, or_false] at h
  rcases h with rfl | rfl | rfl
  · have e1 : compare_and_recommend cfg results "P1" =
        if (if (0 : ℚ) < ((results.map (fun pm =>
                (pm.1, calculate_weighted_score cfg pm.2))).lookup
              "P1").getD 0
            then ((results.map (fun pm =>
                (pm.1, calculate_weighted_score cfg pm.2))).lookup
              "P2").getD 0 /
              ((results.map (fun pm =>
                (pm.1, calculate_weighted_score cfg pm.2))).lookup
              "P1").getD 0
            else 0) ≥ cfg.min_improvement_ratio
        then some "P2" else some "P1" := rfl
    constructor
    · rw [e1]
      simp only [ne_eq, String.reduceEq, not_false_eq_true, true_and, reduceIte]
      exact (apply_ite some _ "P2" "P1").symm
    · intro r hr
      rw [e1] at hr
      by_cases hge :
          (if (0 : ℚ) < ((results.map (fun pm =>
                  (pm.1, calculate_weighted_score cfg pm.2))).lookup
                "P1").getD 0
              then ((results.map (fun pm =>
                  (pm.1, calculate_weighted_score cfg pm.2))).lookup
                "P2").getD 0 /
                ((results.map (fun pm =>
                  (pm.1, calculate_weighted_score cfg pm.2))).lookup
                "P1").getD 0
              else 0) ≥ cfg.min_improvement_ratio
      · rw [if_pos hge] at hr
        cases hr
        decide
      · rw [if_neg hge] at hr
        cases hr
        decide
  · have e2 : compare_and_recommend cfg results "P2" =
        if (if (0 : ℚ) < ((results.map (fun pm =>
                (pm.1, calculate_weighted_score cfg pm.2))).lookup
              "P2").getD 0
            then ((results.map (fun pm =>
                (pm.1, calculate_weighted_score cfg pm.2))).lookup
              "P3").getD 0 /
              ((results.map (fun pm =>
                (pm.1, calculate_weighted_score cfg pm.2))).lookup
              "P2").getD 0
            else 0) ≥ cfg.min_improvement_ratio
        then some "P3" else some "P2" := rfl
    constructor
    · rw [e2]
      simp only [ne_eq, String.reduceEq, not_false_eq_true, true_and, reduceIte]
      exact (apply_ite some _ "P3" "P2").symm
    · intro r hr
      rw [e2] at hr
      by_cases hge :
          (if (0 : ℚ) < ((results.map (fun pm =>
                  (pm.1, calculate_weighted_score cfg pm.2))).lookup
                "P2").getD 0
              then ((results.map (fun pm =>
                  (pm.1, calculate_weighted_score cfg pm.2))).lookup
                "P3").getD 0 /
                ((results.map (fun pm =>
                  (pm.1, calculate_weighted_score cfg pm.2))).lookup
                "P2").getD 0
              else 0) ≥ cfg.min_improvement_ratio
      · rw [if_pos hge] at hr
        cases hr
        decide
      · rw [if_neg hge] at hr
        cases hr
        decide
  · have e3 : compare_and_recommend cfg results "P3" = some "P3" := rfl
    constructor
    · rw [e3]
      simp only [ne_eq, String.reduceEq, not_true_eq_false, false_and, if_false]
    · intro r hr
      rw [e3] at hr
      cases hr
      decide


/-- Configuration for the C4 example instances: metric weights (1, 0, 0) so
the composite score equals Precision@10, improvement gate 1.1. -/
def c4_cfg : Config :=
  { c3_cfg with precision_weight := 1, recall_weight := 0, ndcg_weight := 0 }

/-- Closed instances of `c4_promotion_decision`, the worked examples of the
claim: composite scores 0.50 vs 0.56 give ratio 1.12 ≥ 1.1 and promote
P1→P2; scores 0.50 vs 0.54 give ratio 1.08 < 1.1 and hold P1. -/
theorem c4_witness :
    compare_and_recommend c4_cfg
      [("P1", ⟨1 / 2, 0, 0⟩), ("P2", ⟨14 / 25, 0, 0⟩)] "P1" = some "P2" ∧
    compare_and_recommend c4_cfg
      [("P1", ⟨1 / 2, 0, 0⟩), ("P2", ⟨27 / 50, 0, 0⟩)] "P1" = some "P1" := by
  constructor
  · exact ((c4_promotion_decision c4_cfg
      [("P1", ⟨1 / 2, 0, 0⟩), ("P2", ⟨14 / 25, 0, 0⟩)] "P1" (by decide)).1).trans
      (by with_unfolding_all decide)
  · exact ((c4_promotion_decision c4_cfg
      [("P1", ⟨1 / 2, 0, 0⟩), ("P2", ⟨27 / 50, 0, 0⟩)] "P1" (by decide)).1).trans
      (by with_unfolding_all decide)

/-! ## Helper lemmas: the weighted squared sum -/

/-- With nonnegative weights, the weighted squared sum is nonnegative. -/
theorem weightedSqSum_nonneg : ∀ (a b w : List ℚ), (∀ x ∈ w, 0 ≤ x) →
    0 ≤ weightedSqSum a b w
  | [], _, _, _ => le_refl 0
  | _ :: _, [], _, _ => le_refl 0
  | _ :: _, _ :: _, [], _ => le_refl 0
  | x :: as', y :: bs, v :: ws, h => by
    simp only [weightedSqSum]
    have h1 : 0 ≤ v * (x - y) ^ 2 :=
      mul_nonneg (h v (List.mem_cons_self v ws)) (sq_nonneg _)
    have h2 : 0 ≤ weightedSqSum as' bs ws :=
      weightedSqSum_nonneg as' bs ws fun z hz => h z (List.mem_cons_of_mem v hz)
    linarith

/-- With strictly positive weights and equal lengths, the weighted squared
sum vanishes exactly on identical vectors. -/
theorem weightedSqSum_eq_zero_iff : ∀ (a b w : List ℚ),
    a.length = b.length → w.length = a.length → (∀ x ∈ w, 0 < x) →
    (weightedSqSum a b w = 0 ↔ a = b)
  | [], [], [], _, _, _ => by simp [weightedSqSum]
  | [], [], _ :: _, _, hw, _ => by simp at hw
  | [], _ :: _, _, ha, _, _ => by simp at ha
  | _ :: _, [], _, ha, _, _ => by simp at ha
  | _ :: _, _ :: _, [], _, hw, _ => by simp at hw
  | x :: as', y :: bs, v :: ws, ha, hw, hpos => by
    simp only [weightedSqSum]
    have hv : 0 < v := hpos v (List.mem_cons_self v ws)
    have h1 : 0 ≤ v * (x - y) ^ 2 := mul_nonneg hv.le (sq_nonneg _)
    have h2 : 0 ≤ weightedSqSum as' bs ws :=
      weightedSqSum_nonneg as' bs ws fun z hz => (hpos z (List.mem_cons_of_mem v hz)).le
    rw [add_eq_zero_iff_of_nonneg h1 h2]
    have hterm : v * (x - y) ^ 2 = 0 ↔ x = y := by
      constructor
      · intro h0
        have := (mul_eq_zero.mp h0).resolve_left (ne_of_gt hv)
        have := pow_eq_zero_iff (two_ne_zero) |>.mp this
        linarith [sub_eq_zero.mp this]
      · intro h0
        rw [h0]
        ring
    have hrest := weightedSqSum_eq_zero_iff as' bs ws
      (by simpa using ha) (by simpa using hw)
      (fun z hz => hpos z (List.mem_cons_of_mem v hz))
    rw [hterm, hrest]
    constructor
    · rintro ⟨rfl, rfl⟩
      rfl
    · intro h0
      cases h0
      exact ⟨rfl, rfl⟩

/-- C6 counterexample: the claim quantifies over *non-negative* weights, but
with the all-zero weight vector the distance `sqrt(Σ w_i (a_i - b_i)^2)` of
the distinct vectors `[0]` and `[1]` is 0, refuting "distance = 0 iff the
vectors are identical". -/
theorem c6_counterexample :
    calculate_weighted_euclidean_distanceSq [0] [1] [0] = some 0 ∧
    (∀ x ∈ ([0] : List ℚ), 0 ≤ x) ∧
    Real.sqrt ((0 : ℚ) : ℝ) = 0 ∧
    ([(0 : ℚ)] ≠ [1]) := by
  refine ⟨by with_unfolding_all decide, by decide, by simp, by decide⟩

/-- C6 amended: for equal-length vectors and weights, the distance
`sqrt(Σ w_i (a_i - b_i)^2)` is nonnegative whenever the weights are
nonnegative (as is the squared sum under the root), and with *strictly
positive* weights it is zero if and only if the two vectors are
identical. -/
theorem c6_distance_zero_iff_identical (vec_a vec_b weights : List ℚ)
    (s : ℚ)
    (h : calculate_weighted_euclidean_distanceSq vec_a vec_b weights = some s) :
    ((∀ x ∈ weights, 0 ≤ x) → 0 ≤ s ∧ 0 ≤ Real.sqrt (s : ℝ)) ∧
    ((∀ x ∈ weights, 0 < x) →
      (Real.sqrt (s : ℝ) = 0 ↔ vec_a = vec_b)) := by
  unfold calculate_weighted_euclidean_distanceSq at h
  by_cases hab : vec_a.length = vec_b.length
  · by_cases hwa : weights.length = vec_a.length
    · rw [if_neg (by simpa using hab), if_neg (by simpa using hwa),
        Option.some_inj] at h
      subst h
      constructor
      · intro hw
        have hs := weightedSqSum_nonneg vec_a vec_b weights hw
        exact ⟨hs, Real.sqrt_nonneg _⟩
      · intro hw
        have hs : 0 ≤ weightedSqSum vec_a vec_b weights :=
          weightedSqSum_nonneg vec_a vec_b weights fun z hz => (hw z hz).le
        rw [Real.sqrt_eq_zero']
        constructor
        · intro hle
          have : weightedSqSum vec_a vec_b weights = 0 := by
            have : ((weightedSqSum vec_a vec_b weights : ℚ) : ℝ) ≤ 0 := hle
            exact_mod_cast le_antisymm (by exact_mod_cast this) hs
          exact (weightedSqSum_eq_zero_iff vec_a vec_b weights hab hwa hw).mp this
        · intro heq
          have : weightedSqSum vec_a vec_b weights = 0 :=
            (weightedSqSum_eq_zero_iff vec_a vec_b weights hab hwa hw).mpr heq
          rw [this]
          norm_num
    · rw [if_neg (by simpa using hab), if_pos (by simpa using hwa)] at h
      cases h
  · rw [if_pos (by simpa using hab)] at h
    cases h

/-- Closed instance of `c6_distance_zero_iff_identical` at the unit-weight
vectors `[1,2]` and `[1,3]` with squared distance 1. -/
theorem c6_witness :
    calculate_weighted_euclidean_distanceSq [1, 2] [1, 3] [1, 1] = some 1 ∧
    ((∀ x ∈ ([1, 1] : List ℚ), 0 ≤ x) →
      0 ≤ (1 : ℚ) ∧ 0 ≤ Real.sqrt ((1 : ℚ) : ℝ)) ∧
    ((∀ x ∈ ([1, 1] : List ℚ), 0 < x) →
      (Real.sqrt ((1 : ℚ) : ℝ) = 0 ↔ [(1 : ℚ), 2] = [1, 3])) := by
  have h : calculate_weighted_euclidean_distanceSq [1, 2] [1, 3] [1, 1] =
      some 1 := by with_unfolding_all decide
  have := c6_distance_zero_iff_identical [1, 2] [1, 3] [1, 1] 1 h
  exact ⟨h, this.1, this.2⟩

/-! ## Helper lemmas: per-axis bounds for the feature space (claim C5) -/

/-- A one-hot / boolean vector entry is 0 or 1. -/
theorem ite01 (c : Prop) [Decidable c] :
    (if c then (1 : ℚ) else 0) = 0 ∨ (if c then (1 : ℚ) else 0) = 1 := by
  split
  · exact Or.inr rfl
  · exact Or.inl rfl

/-- The squared difference of two 0/1-valued entries is at most 1. -/
theorem sq_diff_le_one {x y : ℚ} (hx : x = 0 ∨ x = 1) (hy : y = 0 ∨ y = 1) :
    (x - y) ^ 2 ≤ 1 := by
  rcases hx with rfl | rfl <;> rcases hy with rfl | rfl <;> norm_num

/-- The weighted squared distance of an achievable pair (age difference
within the 15-year span, occupancy difference within 10) is bounded by the
squared analytic maximum, for any nonnegative gender and age weights. -/
theorem weightedSqSum_le_maxPossibleDistanceSq (gw aw : ℚ) (hgw : 0 ≤ gw)
    (haw : 0 ≤ aw) (member : Member) (post : RecruitPost) (author : Member)
    (hage : |(member.age : ℚ) - (author.age : ℚ)| ≤ 15)
    (hocc : |((member.cohabitant_count.getD 0 : ℤ) : ℚ) -
      (post.recruit_count : ℚ)| ≤ 10) :
    weightedSqSum (memberFeatureVector member)
      (authorFeatureVector post author) (create_weight_vector gw aw) ≤
      maxPossibleDistanceSq gw aw := by
  have hage2 : ((member.age : ℚ) - (author.age : ℚ)) ^ 2 ≤ 225 := by
    have h := abs_le.mp hage
    nlinarith [h.1, h.2]
  have hocc2 : (((member.cohabitant_count.getD 0 : ℤ) : ℚ) -
      (post.recruit_count : ℚ)) ^ 2 ≤ 100 := by
    have h := abs_le.mp hocc
    nlinarith [h.1, h.2]
  simp only [memberFeatureVector, authorFeatureVector, create_weight_vector,
    List.replicate, List.cons_append, List.nil_append, weightedSqSum,
    maxPossibleDistanceSq]
  have g1 := sq_diff_le_one (ite01 (member.preferred_gender = some "MAN"))
    (ite01 (author.gender = "MAN"))
  have g2 := sq_diff_le_one (ite01 (member.preferred_gender = some "FEMALE"))
    (ite01 (author.gender = "FEMALE"))
  have g3 := sq_diff_le_one (ite01 (member.preferred_gender = some "NONE"))
    (Or.inl rfl)
  have l1 := sq_diff_le_one
    (ite01 (member.preferred_life_style = some "MORNING"))
    (ite01 (author.my_lifestyle = some "MORNING"))
  have l2 := sq_diff_le_one
    (ite01 (member.preferred_life_style = some "EVENING"))
    (ite01 (author.my_lifestyle = some "EVENING"))
  have p1 := sq_diff_le_one
    (ite01 (member.preferred_personality = some "INTROVERT"))
    (ite01 (author.my_personality = some "INTROVERT"))
  have p2 := sq_diff_le_one
    (ite01 (member.preferred_personality = some "EXTROVERT"))
    (ite01 (author.my_personality = some "EXTROVERT"))
  have b1 := sq_diff_le_one (ite01 (member.possible_smoking = true))
    (ite01 (author.is_smoking = true))
  have b2 := sq_diff_le_one (ite01 (member.possible_snoring = true))
    (ite01 (author.is_snoring = true))
  have b3 := sq_diff_le_one (ite01 (member.has_pet_allowed = true))
    (ite01 (author.has_pet = true))
  nlinarith [mul_le_mul_of_nonneg_left g1 hgw, mul_le_mul_of_nonneg_left g2 hgw,
    mul_le_mul_of_nonneg_left g3 hgw, mul_le_mul_of_nonneg_left hage2 haw,
    l1, l2, p1, p2, b1, b2, b3, hocc2]

/-- C5: for any nonnegative configured gender and age weights, the
analytically computed theoretical maximum distance bounds the weighted
distance of every achievable (requester-vector, author-vector) pair — the
one-hot and boolean axes range over {0,1}, the age axis difference is
within the 15-year span and the occupancy difference within 10 — and the
normalised score `clamp(1 - distance/maxDistance, 0, 1)` lies in `[0,1]`
for every distance. -/
theorem c5_max_distance_is_upper_bound (gw aw : ℚ) (hgw : 0 ≤ gw)
    (haw : 0 ≤ aw) (member : Member) (post : RecruitPost) (author : Member)
    (hage : |(member.age : ℚ) - (author.age : ℚ)| ≤ 15)
    (hocc : |((member.cohabitant_count.getD 0 : ℤ) : ℚ) -
      (post.recruit_count : ℚ)| ≤ 10) :
    calculate_weighted_euclidean_distanceSq (memberFeatureVector member)
        (authorFeatureVector post author) (create_weight_vector gw aw) =
      some (weightedSqSum (memberFeatureVector member)
        (authorFeatureVector post author) (create_weight_vector gw aw)) ∧
    weightedSqSum (memberFeatureVector member)
        (authorFeatureVector post author) (create_weight_vector gw aw) ≤
      maxPossibleDistanceSq gw aw ∧
    Real.sqrt ((weightedSqSum (memberFeatureVector member)
        (authorFeatureVector post author) (create_weight_vector gw aw) : ℚ)
        : ℝ) ≤
      Real.sqrt ((maxPossibleDistanceSq gw aw : ℚ) : ℝ) ∧
    ∀ d : ℝ,
      0 ≤ max 0 (min 1
        (1 - d / Real.sqrt ((maxPossibleDistanceSq gw aw : ℚ) : ℝ))) ∧
      max 0 (min 1
        (1 - d / Real.sqrt ((maxPossibleDistanceSq gw aw : ℚ) : ℝ))) ≤ 1 := by
  have hb := weightedSqSum_le_maxPossibleDistanceSq gw aw hgw haw member post
    author hage hocc
  refine ⟨rfl, hb, Real.sqrt_le_sqrt (by exact_mod_cast hb), ?_⟩
  intro d
  exact ⟨le_max_left 0 _, max_le (by norm_num) (min_le_left 1 _)⟩

/-- Closed instance of `c5_max_distance_is_upper_bound` at the default
weights 5 and 3 and the C1 scenario's requester, author and first post. -/
theorem c5_witness :
    (0 : ℚ) ≤ 5 ∧ (0 : ℚ) ≤ 3 ∧
    |(c1_requester.age : ℚ) - (c1_author.age : ℚ)| ≤ 15 ∧
    |((c1_requester.cohabitant_count.getD 0 : ℤ) : ℚ) -
      (((1 : ℤ)) : ℚ)| ≤ 10 ∧
    weightedSqSum (memberFeatureVector c1_requester)
        (authorFeatureVector
          { recruit_post_id := 10, recruit_count := 1,
            recruit_status := "RECRUITING", member_id := 2 } c1_author)
        (create_weight_vector 5 3) ≤
      maxPossibleDistanceSq 5 3 := by
  have h1 : (0 : ℚ) ≤ 5 := by norm_num
  have h2 : (0 : ℚ) ≤ 3 := by norm_num
  have h3 : |(c1_requester.age : ℚ) - (c1_author.age : ℚ)| ≤ 15 := by
    norm_num [c1_requester, c1_author]
  have h4 : |((c1_requester.cohabitant_count.getD 0 : ℤ) : ℚ) -
      (((1 : ℤ)) : ℚ)| ≤ 10 := by
    norm_num [c1_requester]
  exact ⟨h1, h2, h3, h4,
    (c5_max_distance_is_upper_bound 5 3 h1 h2 c1_requester
      { recruit_post_id := 10, recruit_count := 1,
        recruit_status := "RECRUITING", member_id := 2 } c1_author h3
      h4).2.1⟩

/-- C8 counterexample: on `recommended = [1,2,3,4,5]`, `relevant = {2,4,7}`,
`K = 5`, the code's NDCG — DCG summed over the relevant 1-based positions
`[2,4]` divided by the IDCG loop running `min(|relevant|,K) = 3` steps — is
*not* the claimed value `(1/log2 3 + 1/log2 5) / (1/log2 2 + 1/log2 3)`:
the claimed IDCG has only two terms where the code (following the standard
definition) sums three, so the code's value ≈ 0.498, not ≈ 0.651. -/
theorem c8_counterexample :
    ((dcgPositions [1, 2, 3, 4, 5] {2, 4, 7} 5).map
        (fun i => 1 / Real.logb 2 ((i : ℝ) + 1))).sum /
      ((List.range (idcgCount {2, 4, 7} 5)).map
        (fun i => 1 / Real.logb 2 ((i : ℝ) + 2))).sum ≠
      (1 / Real.logb 2 3 + 1 / Real.logb 2 5) /
        (1 / Real.logb 2 2 + 1 / Real.logb 2 3) := by
  have h2 : 0 < Real.logb 2 2 := Real.logb_pos (by norm_num) (by norm_num)
  have h3 : 0 < Real.logb 2 3 := Real.logb_pos (by norm_num) (by norm_num)
  have h4 : 0 < Real.logb 2 4 := Real.logb_pos (by norm_num) (by norm_num)
  have h5 : 0 < Real.logb 2 5 := Real.logb_pos (by norm_num) (by norm_num)
  have hA : 0 < 1 / Real.logb 2 3 + 1 / Real.logb 2 5 :=
    add_pos (one_div_pos.mpr h3) (one_div_pos.mpr h5)
  have hB : 0 < 1 / Real.logb 2 2 + 1 / Real.logb 2 3 :=
    add_pos (one_div_pos.mpr h2) (one_div_pos.mpr h3)
  have hC : 0 < 1 / Real.logb 2 4 := one_div_pos.mpr h4
  have hd : dcgPositions [1, 2, 3, 4, 5] {2, 4, 7} 5 = [2, 4] := by
    with_unfolding_all decide
  have hi : idcgCount {2, 4, 7} 5 = 3 := by with_unfolding_all decide
  rw [hd, hi]
  have hnum : (([2, 4] : List ℕ).map
      (fun i => 1 / Real.logb 2 ((i : ℝ) + 1))).sum =
      1 / Real.logb 2 3 + 1 / Real.logb 2 5 := by
    norm_num
  have hden : ((List.range 3).map
      (fun i => 1 / Real.logb 2 ((i : ℝ) + 2))).sum =
      1 / Real.logb 2 2 + 1 / Real.logb 2 3 + 1 / Real.logb 2 4 := by
    norm_num [List.range_succ]
    ring
  rw [hnum, hden]
  exact ne_of_lt (div_lt_div_of_pos_left hA hB (by linarith))

/-- C8 amended: the metric functions satisfy the reference definitions —
`Precision@K = |recommended_K ∩ relevant| / K` for positive `K`,
`Recall@K = |recommended_K ∩ relevant| / |relevant|` (0 when `relevant` is
empty) — and on `recommended = [1,2,3,4,5]`, `relevant = {2,4,7}`, `K = 5`
they return Precision@5 = 0.4, Recall@5 = 2/3, and
NDCG@5 = (1/log2 3 + 1/log2 5) / (1/log2 2 + 1/log2 3 + 1/log2 4) ≈ 0.498
(the IDCG loop runs `min(|relevant|, K) = 3` steps). -/
theorem c8_metrics_reference_definitions :
    (∀ (recommended : List ℤ) (relevant : Finset ℤ) (k : ℕ), 0 < k →
      precision_at_k recommended relevant k =
        (((recommended.take k).toFinset ∩ relevant).card : ℚ) / k) ∧
    (∀ (recommended : List ℤ) (relevant : Finset ℤ) (k : ℕ),
      0 < relevant.card →
      recall_at_k recommended relevant k =
        (((recommended.take k).toFinset ∩ relevant).card : ℚ) /
          relevant.card) ∧
    (∀ (recommended : List ℤ) (k : ℕ), recall_at_k recommended ∅ k = 0) ∧
    precision_at_k [1, 2, 3, 4, 5] {2, 4, 7} 5 = 2 / 5 ∧
    recall_at_k [1, 2, 3, 4, 5] {2, 4, 7} 5 = 2 / 3 ∧
    dcgPositions [1, 2, 3, 4, 5] {2, 4, 7} 5 = [2, 4] ∧
    idcgCount {2, 4, 7} 5 = 3 ∧
    ((dcgPositions [1, 2, 3, 4, 5] {2, 4, 7} 5).map
        (fun i => 1 / Real.logb 2 ((i : ℝ) + 1))).sum /
      ((List.range (idcgCount {2, 4, 7} 5)).map
        (fun i => 1 / Real.logb 2 ((i : ℝ) + 2))).sum =
      (1 / Real.logb 2 3 + 1 / Real.logb 2 5) /
        (1 / Real.logb 2 2 + 1 / Real.logb 2 3 + 1 / Real.logb 2 4) := by
  refine ⟨?_, ?_, ?_, ?_, ?_, ?_, ?_, ?_⟩
  · intro recommended relevant k hk
    simp only [precision_at_k]
    rw [if_pos hk]
  · intro recommended relevant k hrel
    simp only [recall_at_k]
    rw [if_pos hrel]
  · intro recommended k
    simp [recall_at_k]
  · with_unfolding_all decide
  · with_unfolding_all decide
  · with_unfolding_all decide
  · with_unfolding_all decide
  · have hd : dcgPositions [1, 2, 3, 4, 5] {2, 4, 7} 5 = [2, 4] := by
      with_unfolding_all decide
    have hi : idcgCount {2, 4, 7} 5 = 3 := by with_unfolding_all decide
    rw [hd, hi]
    have hnum : (([2, 4] : List ℕ).map
        (fun i => 1 / Real.logb 2 ((i : ℝ) + 1))).sum =
        1 / Real.logb 2 3 + 1 / Real.logb 2 5 := by
      norm_num
    have hden : ((List.range 3).map
        (fun i => 1 / Real.logb 2 ((i : ℝ) + 2))).sum =
        1 / Real.logb 2 2 + 1 / Real.logb 2 3 + 1 / Real.logb 2 4 := by
      norm_num [List.range_succ]
      ring
    rw [hnum, hden]

/-- Closed instance of `c8_metrics_reference_definitions` (precision and
recall formulas applied at the worked example). -/
theorem c8_witness :
    (0 : ℕ) < 5 ∧ (0 : ℕ) < ({2, 4, 7} : Finset ℤ).card ∧
    precision_at_k [1, 2, 3, 4, 5] {2, 4, 7} 5 =
      ((([1, 2, 3, 4, 5] : List ℤ).take 5).toFinset ∩ {2, 4, 7}).card /
        (5 : ℚ) ∧
    recall_at_k [1, 2, 3, 4, 5] {2, 4, 7} 5 =
      ((([1, 2, 3, 4, 5] : List ℤ).take 5).toFinset ∩ {2, 4, 7}).card /
        (({2, 4, 7} : Finset ℤ).card : ℚ) := by
  refine ⟨by norm_num, by with_unfolding_all decide, ?_, ?_⟩
  · exact (c8_metrics_reference_definitions).1 [1, 2, 3, 4, 5] {2, 4, 7} 5
      (by norm_num)
  · exact (c8_metrics_reference_definitions).2.1 [1, 2, 3, 4, 5] {2, 4, 7} 5
      (by with_unfolding_all decide)

/-! ## Helper lemmas: ranks and ordering of the recommendation lists (C9) -/

/-- The ranks that `rankCandidates` assigns are the consecutive integers
starting at its counter. -/
theorem rankCandidates_map_rank (sc : ℚ → ℚ) (incl : Bool) :
    ∀ (r : ℕ) (l : List Candidate),
      (rankCandidates sc incl r l).map (fun it => it.rank) =
        List.range' r l.length
  | _, [] => by simp [rankCandidates]
  | r, c :: rest => by
    simp [rankCandidates, List.range'_succ, rankCandidates_map_rank sc incl (r + 1) rest]

/-- `rankCandidates` preserves length. -/
theorem length_rankCandidates (sc : ℚ → ℚ) (incl : Bool) :
    ∀ (r : ℕ) (l : List Candidate),
      (rankCandidates sc incl r l).length = l.length
  | _, [] => rfl
  | r, c :: rest => by
    simp [rankCandidates, length_rankCandidates sc incl (r + 1) rest]

/-- The scores `rankCandidates` assigns are the score assignment mapped over
the squared distances (or the constant 0 without explanations). -/
theorem rankCandidates_map_score (sc : ℚ → ℚ) (incl : Bool) :
    ∀ (r : ℕ) (l : List Candidate),
      (rankCandidates sc incl r l).map (fun it => it.score) =
        l.map (fun c => if incl then sc c.distSq else 0)
  | _, [] => by simp [rankCandidates]
  | r, c :: rest => by
    simp [rankCandidates, rankCandidates_map_score sc incl (r + 1) rest]

/-- Candidate comparison by squared distance is total. -/
instance : IsTotal Candidate (fun c d => c.distSq ≤ d.distSq) :=
  ⟨fun a b => le_total a.distSq b.distSq⟩

/-- Candidate comparison by squared distance is transitive. -/
instance : IsTrans Candidate (fun c d => c.distSq ≤ d.distSq) :=
  ⟨fun _ _ _ hab hbc => le_trans hab hbc⟩

/-- The rule-based recommender's output carries 1-based contiguous ranks, at
most `limit` items, and scores that never increase along the list (for any
antitone score assignment). -/
theorem ruleRecommend_props (db : DB) (gw aw : ℚ) (sc : ℚ → ℚ) (user_id : ℤ)
    (limit : ℕ) (incl : Bool) (hsc : Antitone sc) :
    (ruleRecommend db gw aw sc user_id limit incl).map (fun it => it.rank) =
      List.range' 1 (ruleRecommend db gw aw sc user_id limit incl).length ∧
    (ruleRecommend db gw aw sc user_id limit incl).length ≤ limit ∧
    ((ruleRecommend db gw aw sc user_id limit incl).map
      (fun it => it.score)).Pairwise (fun a b => b ≤ a) := by
  unfold ruleRecommend
  cases h : db.members.find? (fun m => m.member_id = user_id) with
  | none => simp
  | some member =>
    refine ⟨?_, ?_, ?_⟩
    · rw [rankCandidates_map_rank, length_rankCandidates]
    · rw [length_rankCandidates, List.length_take]
      exact min_le_left _ _
    · rw [rankCandidates_map_score, List.pairwise_map]
      have hsorted := List.sorted_insertionSort
        (fun c d : Candidate => c.distSq ≤ d.distSq)
        (collectCandidates db member user_id
          (get_member_exclusions db user_id) gw aw
          (db.posts.filter (fun p => p.recruit_status = "RECRUITING")))
      have htake := List.Pairwise.sublist (List.take_sublist limit _) hsorted
      refine htake.imp ?_
      intro c d hcd
      by_cases hincl : incl = true
      · simp only [hincl, if_true]
        exact hsc hcd
      · simp only [Bool.not_eq_true] at hincl
        simp [hincl]

/-- When every id to assemble resolves — it matches a rule item or an
existing post — `assembleBlended` skips nothing: it assigns the consecutive
ranks starting at its counter and the blended scores in order. -/
theorem assembleBlended_props (db : DB) (rule_items : List RecommendationItem)
    (blended : ℤ → ℚ) :
    ∀ (r : ℕ) (ids : List ℤ),
      (∀ pid ∈ ids,
        (rule_items.find? (fun it => it.post_id = pid)).isSome ∨
        (db.posts.find? (fun p => p.recruit_post_id = pid)).isSome) →
      (assembleBlended db rule_items blended r ids).map (fun it => it.rank) =
          List.range' r ids.length ∧
      (assembleBlended db rule_items blended r ids).length = ids.length ∧
      (assembleBlended db rule_items blended r ids).map (fun it => it.score) =
        ids.map blended
  | _, [], _ => by simp [assembleBlended]
  | r, pid :: rest, hok => by
    have hrest := assembleBlended_props db rule_items blended (r + 1) rest
      fun q hq => hok q (List.mem_cons_of_mem pid hq)
    by_cases hrule : (rule_items.find? (fun it => it.post_id = pid)).isSome
    · simp [assembleBlended, hrule, List.range'_succ, hrest.1, hrest.2.1,
        hrest.2.2]
    · rcases hok pid (List.mem_cons_self pid rest) with hr | hdb
      · exact absurd hr hrule
      · rcases Option.isSome_iff_exists.mp hdb with ⟨p, hp⟩
        simp [assembleBlended, hrule, hp, List.range'_succ, hrest.1,
          hrest.2.1, hrest.2.2]

/-- The blended output of `blend_recommendations` carries 1-based contiguous
ranks, at most `limit` items, and blended scores that never increase along
the list, provided every MF-predicted id is a rule-item id or an existing
post id (as is the case for the ids the hybrid recommender predicts on). -/
theorem blend_recommendations_props (db : DB)
    (rule_items : List RecommendationItem) (mf_predictions : List (ℤ × ℚ))
    (rule_weight mf_weight : ℚ) (limit : ℕ)
    (hok : ∀ pid ∈ mf_predictions.map Prod.fst,
      pid ∈ rule_items.map (fun it => it.post_id) ∨
      ∃ p ∈ db.posts, p.recruit_post_id = pid) :
    (blend_recommendations db rule_items mf_predictions rule_weight
        mf_weight limit).map (fun it => it.rank) =
      List.range' 1 (blend_recommendations db rule_items mf_predictions
        rule_weight mf_weight limit).length ∧
    (blend_recommendations db rule_items mf_predictions rule_weight
      mf_weight limit).length ≤ limit ∧
    ((blend_recommendations db rule_items mf_predictions rule_weight
      mf_weight limit).map (fun it => it.score)).Pairwise
      (fun a b => b ≤ a) := by
  unfold blend_recommendations
  set rule_scores : List (ℤ × ℚ) :=
    rule_items.map (fun it => (it.post_id, it.score)) with hrs
  set blended : ℤ → ℚ := fun pid =>
    ((normalize_scores rule_scores).lookup pid).getD 0 * rule_weight +
      ((normalize_scores mf_predictions).lookup pid).getD 0 * mf_weight
    with hbl
  set all_post_ids : List ℤ :=
    (rule_scores.map Prod.fst ++ mf_predictions.map Prod.fst).dedup with hids
  set sorted_post_ids : List ℤ :=
    (List.insertionSort (fun x y => blended y ≤ blended x)
      all_post_ids).take limit with hsorted
  have hmem : ∀ pid ∈ sorted_post_ids,
      (rule_items.find? (fun it => it.post_id = pid)).isSome ∨
      (db.posts.find? (fun p => p.recruit_post_id = pid)).isSome := by
    intro pid hpid
    have h1 : pid ∈ all_post_ids := by
      have h2 := (List.take_sublist limit _).subset hpid
      have h3 := (List.perm_insertionSort
        (fun x y => blended y ≤ blended x) all_post_ids).mem_iff.mp h2
      exact h3
    rw [hids, List.mem_dedup, List.mem_append] at h1
    rcases h1 with h1 | h1
    · left
      rw [hrs, List.map_map] at h1
      rcases List.mem_map.mp h1 with ⟨it, hit, hpid'⟩
      exact List.find?_isSome.mpr ⟨it, hit, by simpa using hpid'⟩
    · rcases hok pid h1 with h2 | ⟨p, hp, hpe⟩
      · left
        rcases List.mem_map.mp h2 with ⟨it, hit, hpid'⟩
        exact List.find?_isSome.mpr ⟨it, hit, by simp [hpid']⟩
      · right
        exact List.find?_isSome.mpr ⟨p, hp, by simp [hpe]⟩
  have hprops := assembleBlended_props db rule_items blended 1
    sorted_post_ids hmem
  refine ⟨?_, ?_, ?_⟩
  · rw [hprops.1, hprops.2.1]
  · rw [hprops.2.1, hsorted, List.length_take]
    exact min_le_left _ _
  · rw [hprops.2.2, List.pairwise_map]
    have hsorted' := @List.sorted_insertionSort ℤ
      (fun x y => blended y ≤ blended x)
      (fun x y => inferInstanceAs (Decidable _))
      ⟨fun a b => le_total (blended b) (blended a)⟩
      ⟨fun a b c hab hbc => le_trans hbc hab⟩ all_post_ids
    exact List.Pairwise.sublist (List.take_sublist limit _) hsorted'

/-- C9: on both the similarity-only and the blended path, every
recommendation response carries ranks that are 1-based, unique and
contiguous (exactly `1..N` for `N` returned items), holds at most the
requested `limit` of items (the blended list is truncated before
re-ranking), and is ordered by non-increasing blended/similarity score —
for every antitone score assignment; the final conjunct shows the genuine
score `clamp(1 - distance/maxDistance, 0, 1)` is antitone in the distance
at the real-number level, so the rule path's sqrt-based scores satisfy the
hypothesis. -/
theorem c9_ranks_contiguous_scores_descending (db : DB) (cfg : Config)
    (mfModel : Option (ℤ → ℤ → ℚ)) (sc : ℚ → ℚ) (user_id : ℤ) (limit : ℕ)
    (incl : Bool) (hsc : Antitone sc) :
    ((hybridRecommend db cfg mfModel sc user_id limit incl).map
        (fun it => it.rank) =
      List.range' 1
        (hybridRecommend db cfg mfModel sc user_id limit incl).length ∧
      (hybridRecommend db cfg mfModel sc user_id limit incl).length ≤
        limit ∧
      ((hybridRecommend db cfg mfModel sc user_id limit incl).map
        (fun it => it.score)).Pairwise (fun a b => b ≤ a)) ∧
    ((ruleRecommend db cfg.gender_weight cfg.age_weight sc user_id limit
        incl).map (fun it => it.rank) =
      List.range' 1 (ruleRecommend db cfg.gender_weight cfg.age_weight sc
        user_id limit incl).length ∧
      (ruleRecommend db cfg.gender_weight cfg.age_weight sc user_id limit
        incl).length ≤ limit ∧
      ((ruleRecommend db cfg.gender_weight cfg.age_weight sc user_id limit
        incl).map (fun it => it.score)).Pairwise (fun a b => b ≤ a)) ∧
    (∀ (gw aw : ℚ) (x y : ℝ), x ≤ y →
      max 0 (min 1
          (1 - y / Real.sqrt ((maxPossibleDistanceSq gw aw : ℚ) : ℝ))) ≤
        max 0 (min 1
          (1 - x / Real.sqrt ((maxPossibleDistanceSq gw aw : ℚ) : ℝ)))) := by
  have hrule := ruleRecommend_props db cfg.gender_weight cfg.age_weight sc
    user_id limit incl hsc
  refine ⟨?_, hrule, ?_⟩
  · simp only [hybridRecommend]
    split
    · exact hrule
    · split
      · simp
      · split
        · rw [ruleRecommend_take]
          exact hrule
        · rename_i predict
          apply blend_recommendations_props
          intro pid hpid
          have hfst : ∀ (ids : List ℤ),
              (get_mf_predictions predict user_id ids).map Prod.fst = ids := by
            intro ids
            simp only [get_mf_predictions, List.map_map]
            exact (List.map_congr_left fun a _ => rfl).trans (List.map_id ids)
          rw [hfst] at hpid
          rw [List.mem_dedup, List.mem_append] at hpid
          rcases hpid with hpid | hpid
          · exact Or.inl hpid
          · rcases List.mem_map.mp hpid with ⟨p, hp, hpe⟩
            refine Or.inr ⟨p, ?_, hpe⟩
            have hp' := (List.take_sublist 50 _).subset hp
            exact (List.mem_filter.mp hp').1
  · intro gw aw x y hxy
    rcases eq_or_lt_of_le
        (Real.sqrt_nonneg ((maxPossibleDistanceSq gw aw : ℚ) : ℝ)) with
      hs | hs
    · rw [← hs, div_zero, div_zero]
    · have hdiv : x / Real.sqrt ((maxPossibleDistanceSq gw aw : ℚ) : ℝ) ≤
          y / Real.sqrt ((maxPossibleDistanceSq gw aw : ℚ) : ℝ) :=
        (div_le_div_iff_of_pos_right hs).mpr hxy
      exact max_le_max (le_refl 0) (min_le_min (le_refl 1) (by linarith))

/-- Closed instance of `c9_ranks_contiguous_scores_descending` on the C1
scenario's blended path (the returned ranks are exactly `1..N`). -/
theorem c9_witness :
    Antitone (fun _ : ℚ => (0 : ℚ)) ∧
    (hybridRecommend c1_db c1_cfg (some c1_predict) (fun _ => 0) 1 2
        false).map (fun it => it.rank) =
      List.range' 1 (hybridRecommend c1_db c1_cfg (some c1_predict)
        (fun _ => 0) 1 2 false).length :=
  ⟨antitone_const, (c9_ranks_contiguous_scores_descending c1_db c1_cfg
    (some c1_predict) (fun _ => 0) 1 2 false antitone_const).1.1⟩
